import Mathlib

/-!
Verification development for the obsidian-cc local control-plane server.

The definitions below are a shallow embedding of the TypeScript sources:
the path sandboxing validator, the bounded audit log, the
operation-approval state machine, the per-client rate limiter, and the
HTTP request pipeline of the MCP server.  Strings are modelled as lists
of characters so that every definition is executable by kernel
reduction.  Wall-clock time is passed explicitly as a natural number of
milliseconds.  Unicode NFC normalization and non-breaking-space
replacement performed by the host application are modelled as the
identity (the development works over ASCII inputs).
-/

/-- Character strings, modelled as lists of characters. -/
abbrev Str := List Char

/-- Does the pattern occur as a contiguous subsequence of the string?
This models a regular-expression test for a literal pattern. -/
def containsSeq : Str → Str → Bool
  | pat, [] => pat.isEmpty
  | pat, c :: rest => List.isPrefixOf pat (c :: rest) || containsSeq pat rest

/-- ASCII whitespace, modelling the characters trimmed by the host
string trim operation on ASCII input. -/
def isSpaceCh (c : Char) : Bool :=
  c = ' ' || c = '\t' || c = '\n' || c = '\r'

/-- Model of the string trim operation: removes leading and trailing
whitespace. -/
def jsTrim (s : Str) : Str :=
  ((s.dropWhile isSpaceCh).reverse.dropWhile isSpaceCh).reverse

/-- Lower-cases every character; models toLowerCase on ASCII input. -/
def lowerStr (s : Str) : Str :=
  s.map Char.toLower

/-- Splits a string on the separator character, keeping empty fields,
exactly as the JavaScript split method does. -/
def splitSlash : Str → List Str
  | [] => [[]]
  | c :: rest =>
    if c = '/' then [] :: splitSlash rest
    else
      match splitSlash rest with
      | [] => [[c]]
      | h :: r => (c :: h) :: r

/-- Joins fields with the separator character; inverse of splitSlash on
slash-free fields. -/
def joinSlash : List Str → Str
  | [] => []
  | [s] => s
  | s :: r => s ++ '/' :: joinSlash r

/-- Removes every trailing slash, modelling the trailing-separator strip
regex of the source. -/
def stripTrailingSlashes (s : Str) : Str :=
  (s.reverse.dropWhile (fun c => c = '/')).reverse

/-- The last slash-separated segment of a string. -/
def lastSegment (s : Str) : Str :=
  ((splitSlash s).getLast?).getD []

/-- The NUL character. -/
def nulChar : Char := Char.ofNat 0

/-- Model of the host application path normalization: backslashes become
slashes, runs of slashes collapse to one, and leading and trailing
slashes are removed; the empty result becomes a single slash. -/
def normalizePath (p : Str) : Str :=
  let slashed := p.map fun c => if c = '\\' then '/' else c
  let joined := joinSlash ((splitSlash slashed).filter (fun part => ¬ part = []))
  if joined = [] then [ '/' ] else joined

/-- Resolves one path segment list against an accumulator: empty and dot
segments are skipped, a dot-dot segment pops the accumulator (clamping
at the root), and any other segment is appended. -/
def resolveSegs (acc : List Str) : List Str → List Str
  | [] => acc
  | s :: rest =>
    if s = [] ∨ s = [ '.' ] then resolveSegs acc rest
    else if s = [ '.', '.' ] then resolveSegs acc.dropLast rest
    else resolveSegs (acc ++ [s]) rest

/-- Model of the platform path resolve for an absolute base: if the
second argument is absolute it is resolved alone, otherwise it is
joined to the base; dot and dot-dot segments are then eliminated. -/
def pathResolve (base p : Str) : Str :=
  let full := if List.isPrefixOf [ '/' ] p then p else base ++ '/' :: p
  '/' :: joinSlash (resolveSegs [] (splitSlash full))

/-- Allowed file extensions for MCP operations. -/
def ALLOWED_EXTENSIONS : List Str :=
  [ ".md".data, ".txt".data, ".json".data, ".yaml".data, ".yml".data, ".csv".data ]

/-- The dangerous path patterns blocked by the validator: parent
directory traversal, home directory, environment variables, URL-encoded
and double-URL-encoded traversal (case-insensitive), and a NUL byte. -/
def hasDangerousPattern (s : Str) : Bool :=
  containsSeq "..".data s ||
  List.isPrefixOf "~/".data s ||
  List.isPrefixOf "$".data s ||
  containsSeq "%2e%2e".data (lowerStr s) ||
  containsSeq "%252e%252e".data (lowerStr s) ||
  s.contains nulChar

/-- Does the string start with a drive letter such as C: ? -/
def isDrivePrefix (s : Str) : Bool :=
  match s with
  | c :: d :: _ => c.isAlpha && d = ':'
  | _ => false

/-- Absolute path test of the validator: a leading slash or a drive
letter prefix. -/
def isAbsoluteInput (s : Str) : Bool :=
  List.isPrefixOf [ '/' ] s || isDrivePrefix s

/-- The vault path with a guaranteed trailing separator, used for the
containment prefix check. -/
def withSep (vaultPath : Str) : Str :=
  if List.isPrefixOf [ '/' ] vaultPath.reverse then vaultPath else vaultPath ++ [ '/' ]

/-- Does the normalized path contain a hidden segment, i.e. a segment
starting with a dot other than the single-dot segment? -/
def hasHiddenPart (normalized : Str) : Bool :=
  (splitSlash normalized).any fun part =>
    List.isPrefixOf [ '.' ] part && ¬ part = [ '.' ]

/-- Result of a path validation. -/
structure PathValidationResult where
  valid : Bool
  sanitizedPath : Option Str := none
  error : Option Str := none
deriving DecidableEq

/-- Validate that a path is safe and within the vault. -/
def PathValidator.validate (vaultPath requestedPath : Str) : PathValidationResult :=
  if requestedPath = [] then
    ⟨false, none, some "Path is required".data⟩
  else if jsTrim requestedPath = [] then
    ⟨false, none, some "Path cannot be empty".data⟩
  else if hasDangerousPattern requestedPath then
    ⟨false, none, some "Path contains dangerous pattern".data⟩
  else if isAbsoluteInput requestedPath then
    ⟨false, none, some "Absolute paths are not allowed".data⟩
  else
    let normalized := normalizePath requestedPath
    let absolutePath := pathResolve vaultPath normalized
    if ¬ absolutePath = vaultPath ∧ ¬ List.isPrefixOf (withSep vaultPath) absolutePath then
      ⟨false, none, some "Path escapes vault directory".data⟩
    else if hasHiddenPart normalized then
      ⟨false, none, some "Hidden files folders are not allowed".data⟩
    else
      ⟨true, some normalized, none⟩

/-- Validation of an optional argument: an absent argument fails the
required check, as the falsy test of the source does. -/
def PathValidator.validateOpt (vaultPath : Str) (requestedPath : Option Str) : PathValidationResult :=
  match requestedPath with
  | none => ⟨false, none, some "Path is required".data⟩
  | some s => PathValidator.validate vaultPath s

/-- Model of the platform extname: the extension of the last segment,
empty for dotfiles and for a bare dot-dot segment. -/
def extname (p : Str) : Str :=
  let base := lastSegment (stripTrailingSlashes p)
  let tail := base.reverse.takeWhile (fun c => ¬ c = '.')
  if tail.length = base.length then []
  else if base.length - tail.length - 1 = 0 then []
  else if base = [ '.', '.' ] then []
  else '.' :: tail.reverse

/-- Validate path with extension check: a missing extension is supplied
with the markdown default when required, and a present extension must be
in the allow list. -/
def PathValidator.validateWithExtension (vaultPath : Str) (requestedPath : Option Str)
    (requireExtension : Bool) : PathValidationResult :=
  let result := PathValidator.validateOpt vaultPath requestedPath
  if ¬ result.valid then result
  else
    let rp := requestedPath.getD []
    let ext := lowerStr (extname rp)
    if ext = [] ∧ requireExtension then
      ⟨true, some (normalizePath (rp ++ ".md".data)), none⟩
    else if ¬ ext = [] ∧ ¬ ALLOWED_EXTENSIONS.contains ext then
      ⟨false, none, some "Extension is not allowed".data⟩
    else result

/-- Sanitize a folder path: the empty string denotes the vault root and
is valid; otherwise the ordinary validation applies and trailing slashes
are stripped. -/
def PathValidator.validateFolder (vaultPath : Str) (folderPath : Str) : PathValidationResult :=
  if folderPath = [] then ⟨true, some [], none⟩
  else
    let result := PathValidator.validate vaultPath folderPath
    if ¬ result.valid then result
    else ⟨true, some (stripTrailingSlashes (result.sanitizedPath.getD [])), none⟩

/-- Plugin settings relevant to the security components. -/
structure ObsidianCCSettings where
  requireApproval : Bool
  auditLogging : Bool
  debugMode : Bool
deriving DecidableEq

/-- The kinds of audit entries. -/
inductive AuditType
  | toolCall
  | resourceRead
  | approvalRequest
  | approvalResponse
deriving DecidableEq

/-- One audit entry.  The wall-clock timestamp stamped by the logger is
not modelled; it carries no information used by any claim. -/
structure AuditEntry where
  type : AuditType
  tool : Option Str := none
  path : Option Str := none
  clientId : Option Str := none
  success : Bool
  error : Option Str := none
deriving DecidableEq

/-- A tool-call audit entry. -/
def toolCallEntry (tool : Str) (path : Option Str) (success : Bool)
    (error : Option Str) : AuditEntry :=
  ⟨.toolCall, some tool, path, none, success, error⟩

/-- An approval-request audit entry. -/
def approvalRequestEntry (tool : Str) (path : Option Str) : AuditEntry :=
  ⟨.approvalRequest, some tool, path, none, true, none⟩

/-- An approval-response audit entry. -/
def approvalResponseEntry (tool : Str) (path : Option Str) (approved : Bool) : AuditEntry :=
  ⟨.approvalResponse, some tool, path, none, approved, none⟩

/-- The capacity bound of the in-memory audit buffer. -/
def maxLogSize : Nat := 1000

/-- Log an audit event: a no-op when audit logging is disabled;
otherwise the entry is appended and, if the buffer exceeds the capacity
bound, the buffer is trimmed to its last maxLogSize entries. -/
def AuditLogger.log (auditLogging : Bool) (logs : List AuditEntry)
    (e : AuditEntry) : List AuditEntry :=
  if auditLogging then
    let l := logs ++ [e]
    if maxLogSize < l.length then l.drop (l.length - maxLogSize) else l
  else logs

/-- The entries a single logging call contributes, given the audit
setting; used by the request-pipeline model to collect entries. -/
def logIf (settings : ObsidianCCSettings) (e : AuditEntry) : List AuditEntry :=
  if settings.auditLogging then [e] else []

/-- Tools that require approval when the require-approval setting is
enabled. -/
def WRITE_TOOLS : List Str :=
  [ "write_note".data, "add_task".data, "complete_task".data ]

/-- The audit and approval unit derived from a tool call. -/
structure MCPOperation where
  tool : Str
  path : Option Str := none
  action : Option Str := none
  timestamp : Nat := 0
  clientId : Option Str := none
deriving DecidableEq

/-- Does the operation require interactive approval? -/
def OperationGuard.requiresApproval (settings : ObsidianCCSettings)
    (op : MCPOperation) : Bool :=
  settings.requireApproval && WRITE_TOOLS.contains op.tool

/-- The outcome observed by the caller of an approval request. -/
inductive ApprovalOutcome
  | approved
  | denied
  | timedOut
deriving DecidableEq

/-- The boolean value with which the approval promise resolves for each
outcome: only an explicit approval resolves to true. -/
def outcomeValue : ApprovalOutcome → Bool
  | .approved => true
  | _ => false

/-- The pending-approval map of the guard, modelled by the list of
pending correlation ids. -/
structure GuardState where
  pending : List Str
deriving DecidableEq

/-- The resolution events that can act on a pending approval: the
timeout timer firing, an explicit user decision from the consent modal,
and the shutdown cancel-all sweep. -/
inductive GuardEvent
  | timeoutFire (id : Str)
  | userRespond (id : Str) (approved : Bool)
  | cancelAll
deriving DecidableEq

/-- One step of the approval state machine.  A timer or user resolution
only fires when the entry is still present, in which case it removes
the entry and emits exactly one resolution; otherwise it is a no-op.
Cancel-all resolves every pending entry to a denial and clears the map. -/
def OperationGuard.step (s : GuardState) :
    GuardEvent → GuardState × List (Str × ApprovalOutcome)
  | .timeoutFire id =>
    if id ∈ s.pending then (⟨s.pending.erase id⟩, [(id, .timedOut)])
    else (s, [])
  | .userRespond id approved =>
    if id ∈ s.pending then
      (⟨s.pending.erase id⟩, [(id, if approved then .approved else .denied)])
    else (s, [])
  | .cancelAll =>
    (⟨[]⟩, s.pending.map fun j => (j, .denied))

/-- Runs a sequence of events through the approval state machine,
collecting every emitted resolution in order. -/
def OperationGuard.run : GuardState → List GuardEvent → GuardState × List (Str × ApprovalOutcome)
  | s, [] => (s, [])
  | s, e :: rest =>
    let p := OperationGuard.step s e
    let q := OperationGuard.run p.1 rest
    (q.1, p.2 ++ q.2)

/-- Does the event resolve the given correlation id when it is pending? -/
def resolvesId (id : Str) : GuardEvent → Bool
  | .timeoutFire j => decide (j = id)
  | .userRespond j _ => decide (j = id)
  | .cancelAll => true

/-- A tool response, reduced to the error flag and the message text;
the full JSON content payloads carry no information used by any claim. -/
structure ToolResponse where
  isError : Bool := false
  message : Str := []
deriving DecidableEq

/-- A tool-level error response. -/
def errorResponse (e : Str) : ToolResponse :=
  ⟨true, e⟩

/-- Outcomes of the external collaborators and of the consent surface
for one dispatched tool call.  An error value models the collaborator
call throwing with that message; the approval flag models the single
consent decision observed by the guard for this call. -/
structure ToolEnv where
  vaultPath : Str
  fileFound : Bool := true
  readResult : Except Str Unit := .ok ()
  writeExisting : Bool := false
  writeResult : Except Str Unit := .ok ()
  approved : Bool := true
  qmdAvailable : Bool := true
  searchResult : Except Str Unit := .ok ()
  tasksQueryResult : Except Str Unit := .ok ()
  addTaskResult : Except Str Unit := .ok ()
  completeTaskResult : Except Str Unit := .ok ()

/-- The arguments of one tool call, each optional exactly as the
untyped JSON argument map of the wire protocol is. -/
structure Args where
  path : Option Str := none
  content : Option Str := none
  mode : Option Str := none
  query : Option Str := none
  folder : Option Str := none
  taskId : Option Str := none
  notePath : Option Str := none
  description : Option Str := none

/-- Execute an operation with optional approval: when approval is
required, the request and response audit entries are emitted and, on
denial, the action is never invoked and an operation-denied error is
raised; otherwise the action runs directly.  The action is a value
pairing the entries it logs with its result. -/
def OperationGuard.executeWithApproval (settings : ObsidianCCSettings) (approved : Bool)
    (op : MCPOperation) (action : List AuditEntry × Except Str ToolResponse) :
    List AuditEntry × Except Str ToolResponse :=
  if OperationGuard.requiresApproval settings op then
    if approved then
      (logIf settings (approvalRequestEntry op.tool op.path) ++
       logIf settings (approvalResponseEntry op.tool op.path true) ++ action.1, action.2)
    else
      (logIf settings (approvalRequestEntry op.tool op.path) ++
       logIf settings (approvalResponseEntry op.tool op.path false),
       .error "Operation denied by user".data)
  else action

/-- The read-note handler: validates the path, then reads the note via
the store; a validation failure, a missing note, or a store failure
throws; success logs one tool-call entry. -/
def MCPServer.readNote (env : ToolEnv) (settings : ObsidianCCSettings)
    (path : Option Str) : List AuditEntry × Except Str ToolResponse :=
  let validation := PathValidator.validateWithExtension env.vaultPath path true
  if ¬ validation.valid then ([], .error (validation.error.getD []))
  else if ¬ env.fileFound then ([], .error ("Note not found: ".data ++ path.getD []))
  else
    match env.readResult with
    | .error e => ([], .error e)
    | .ok _ => (logIf settings (toolCallEntry "read_note".data path true none), .ok ⟨false, []⟩)

/-- The write-note handler: validates the path, enforces the write
mode against the existing file, validates the parent folder, and writes
through the store; success logs one tool-call entry. -/
def MCPServer.writeNote (env : ToolEnv) (settings : ObsidianCCSettings)
    (path : Option Str) (mode : Option Str) : List AuditEntry × Except Str ToolResponse :=
  let validation := PathValidator.validateWithExtension env.vaultPath path true
  if ¬ validation.valid then ([], .error (validation.error.getD []))
  else
    let normalizedPath := validation.sanitizedPath.getD []
    if mode = some "create".data ∧ env.writeExisting then
      ([], .error ("Note already exists: ".data ++ path.getD []))
    else if mode = some "append".data ∧ ¬ env.writeExisting then
      ([], .error ("Note not found for append: ".data ++ path.getD []))
    else
      let folderPath := (splitSlash normalizedPath).dropLast
      let folderValidation := PathValidator.validateFolder env.vaultPath (joinSlash folderPath)
      if ¬ folderPath = [] ∧ ¬ folderValidation.valid then
        ([], .error (folderValidation.error.getD []))
      else
        match env.writeResult with
        | .error e => ([], .error e)
        | .ok _ =>
          (logIf settings (toolCallEntry "write_note".data path true none), .ok ⟨false, []⟩)

/-- The search handler: an unavailable search collaborator yields an
error response with install instructions and no audit entry; an
available collaborator is queried, and success logs one tool-call entry
with no path. -/
def MCPServer.searchVault (env : ToolEnv) (settings : ObsidianCCSettings) :
    List AuditEntry × Except Str ToolResponse :=
  if ¬ env.qmdAvailable then
    ([], .ok (errorResponse "QMD is not available".data))
  else
    match env.searchResult with
    | .error e => ([], .error e)
    | .ok _ =>
      (logIf settings (toolCallEntry "search_vault".data none true none), .ok ⟨false, []⟩)

/-- The list-notes handler: validates the folder argument, then filters
the store listing (a pure computation that cannot throw); success logs
one tool-call entry carrying the folder argument. -/
def MCPServer.listNotes (env : ToolEnv) (settings : ObsidianCCSettings)
    (folder : Str) : List AuditEntry × Except Str ToolResponse :=
  let validation := PathValidator.validateFolder env.vaultPath folder
  if ¬ validation.valid then ([], .error (validation.error.getD []))
  else (logIf settings (toolCallEntry "list_notes".data (some folder) true none), .ok ⟨false, []⟩)

/-- The list-tasks handler: queries the task store with no path
validation; success logs one tool-call entry with no path. -/
def MCPServer.listTasks (env : ToolEnv) (settings : ObsidianCCSettings) :
    List AuditEntry × Except Str ToolResponse :=
  match env.tasksQueryResult with
  | .error e => ([], .error e)
  | .ok _ =>
    (logIf settings (toolCallEntry "list_tasks".data none true none), .ok ⟨false, []⟩)

/-- The add-task handler: validates the note path, then adds the task
through the task store; success logs one tool-call entry carrying the
note path. -/
def MCPServer.addTask (env : ToolEnv) (settings : ObsidianCCSettings)
    (notePath : Option Str) : List AuditEntry × Except Str ToolResponse :=
  let validation := PathValidator.validateWithExtension env.vaultPath notePath true
  if ¬ validation.valid then ([], .error (validation.error.getD []))
  else
    match env.addTaskResult with
    | .error e => ([], .error e)
    | .ok _ =>
      (logIf settings (toolCallEntry "add_task".data notePath true none), .ok ⟨false, []⟩)

/-- The complete-task handler: forwards the task id to the task store
directly, with no path validation; success logs one tool-call entry
carrying the task id. -/
def MCPServer.completeTask (env : ToolEnv) (settings : ObsidianCCSettings)
    (taskId : Option Str) : List AuditEntry × Except Str ToolResponse :=
  match env.completeTaskResult with
  | .error e => ([], .error e)
  | .ok _ =>
    (logIf settings (toolCallEntry "complete_task".data taskId true none), .ok ⟨false, []⟩)

/-- The dispatch switch of executeTool: selects the handler by tool
name, wrapping the mutating tools in the approval guard; an unknown
tool yields an error response flag and no audit entry. -/
def MCPServer.dispatchTool (env : ToolEnv) (settings : ObsidianCCSettings)
    (tool : Str) (args : Args) : List AuditEntry × Except Str ToolResponse :=
  if tool = "read_note".data then MCPServer.readNote env settings args.path
  else if tool = "write_note".data then
    OperationGuard.executeWithApproval settings env.approved
      ⟨tool, args.path, args.mode, 0, none⟩
      (MCPServer.writeNote env settings args.path args.mode)
  else if tool = "search_vault".data then MCPServer.searchVault env settings
  else if tool = "list_notes".data then MCPServer.listNotes env settings (args.folder.getD [])
  else if tool = "list_tasks".data then MCPServer.listTasks env settings
  else if tool = "add_task".data then
    OperationGuard.executeWithApproval settings env.approved
      ⟨tool, args.path, args.mode, 0, none⟩
      (MCPServer.addTask env settings args.notePath)
  else if tool = "complete_task".data then
    OperationGuard.executeWithApproval settings env.approved
      ⟨tool, args.path, args.mode, 0, none⟩
      (MCPServer.completeTask env settings args.taskId)
  else ([], .ok (errorResponse ("Unknown tool: ".data ++ tool)))

/-- Execute a tool: runs the dispatch switch; any raised error is
caught, turned into an error response, and logged as one failed
tool-call entry carrying the top-level path argument. -/
def MCPServer.executeTool (env : ToolEnv) (settings : ObsidianCCSettings)
    (tool : Str) (args : Args) : ToolResponse × List AuditEntry :=
  match MCPServer.dispatchTool env settings tool args with
  | (logs, .ok resp) => (resp, logs)
  | (logs, .error e) =>
    (errorResponse e, logs ++ logIf settings (toolCallEntry tool args.path false (some e)))

/-- Per-client rate limiting record. -/
structure RateRecord where
  count : Nat
  resetTime : Nat
deriving DecidableEq

/-- The rate-limit table, keyed by client address. -/
abbrev RateMap := List (Str × RateRecord)

/-- Looks a client up in the rate-limit table. -/
def lookupRate : RateMap → Str → Option RateRecord
  | [], _ => none
  | (k, v) :: rest, c => if k = c then some v else lookupRate rest c

/-- Inserts or replaces the record of a client in the rate-limit table. -/
def setRate : RateMap → Str → RateRecord → RateMap
  | [], c, v => [(c, v)]
  | (k, w) :: rest, c, v => if k = c then (c, v) :: rest else (k, w) :: setRate rest c v

/-- The fixed request budget per window. -/
def rateLimit : Nat := 100

/-- The fixed window length in milliseconds. -/
def rateWindow : Nat := 60000

/-- Check the rate limit for a client at the given time: an absent or
expired record starts a fresh window with count one; a full budget
rejects without changing the table; otherwise the count increments. -/
def MCPServer.checkRateLimit (m : RateMap) (clientId : Str) (now : Nat) : Bool × RateMap :=
  match lookupRate m clientId with
  | none => (true, setRate m clientId ⟨1, now + rateWindow⟩)
  | some record =>
    if record.resetTime < now then (true, setRate m clientId ⟨1, now + rateWindow⟩)
    else if rateLimit ≤ record.count then (false, m)
    else (true, setRate m clientId ⟨record.count + 1, record.resetTime⟩)

/-- Runs a sequence of rate-limit checks, one per request, returning
the final table and the admission decision of every request in order. -/
def processRequests : RateMap → List (Str × Nat) → RateMap × List Bool
  | m, [] => (m, [])
  | m, (c, t) :: rest =>
    let p := MCPServer.checkRateLimit m c t
    let q := processRequests p.2 rest
    (q.1, p.1 :: q.2)

/-- The parsed body of a call request: malformed JSON, a missing or
non-string tool field, or a well-formed tool call.  Body reading and
JSON parsing are abstracted into this pre-parsed form. -/
inductive ParsedBody
  | invalidJson
  | missingTool
  | call (tool : Str) (args : Args)

/-- One inbound HTTP request. -/
structure Request where
  method : Str
  pathname : Str
  origin : Str := []
  authorization : Option Str := none
  remoteAddress : Str
  parsedBody : ParsedBody := .invalidJson

/-- The response body, reduced to a tag per branch of the pipeline. -/
inductive RespBody
  | preflight
  | tooManyRequests
  | methodNotAllowed
  | health
  | token
  | forbidden
  | unauthorized
  | toolList
  | invalidJsonBody
  | missingToolParam
  | callResult (r : ToolResponse)
  | notFound

/-- One HTTP response. -/
structure Response where
  status : Nat
  body : RespBody

/-- Is the remote address a loopback address? -/
def isLoopback (ip : Str) : Bool :=
  ip = "127.0.0.1".data || ip = "::1".data || ip = "::ffff:127.0.0.1".data

/-- Is the authorization header absent or different from the bearer
form of the current session token? -/
def badAuth (authorization : Option Str) (authToken : Str) : Bool :=
  match authorization with
  | none => true
  | some a => ¬ a = "Bearer ".data ++ authToken

/-- Handle one inbound request: preflight, then rate limit, then the
method gate, then the unauthenticated health and token routes, then the
bearer-token check, then the authenticated routes.  Returns the
response, the updated rate table, and the audit entries logged. -/
def MCPServer.handleRequest (authToken : Str) (env : ToolEnv)
    (settings : ObsidianCCSettings) (m : RateMap) (now : Nat) (req : Request) :
    Response × RateMap × List AuditEntry :=
  if req.method = "OPTIONS".data then (⟨204, .preflight⟩, m, [])
  else
    let rl := MCPServer.checkRateLimit m req.remoteAddress now
    if ¬ rl.1 then (⟨429, .tooManyRequests⟩, rl.2, [])
    else if ¬ req.method = "POST".data ∧ ¬ req.method = "GET".data then
      (⟨405, .methodNotAllowed⟩, rl.2, [])
    else if req.pathname = "/health".data then (⟨200, .health⟩, rl.2, [])
    else if req.pathname = "/auth/token".data ∧ req.method = "GET".data then
      if isLoopback req.remoteAddress then (⟨200, .token⟩, rl.2, [])
      else (⟨403, .forbidden⟩, rl.2, [])
    else if badAuth req.authorization authToken then (⟨401, .unauthorized⟩, rl.2, [])
    else if req.pathname = "/mcp/tools".data ∧ req.method = "GET".data then
      (⟨200, .toolList⟩, rl.2, [])
    else if req.pathname = "/mcp/call".data ∧ req.method = "POST".data then
      match req.parsedBody with
      | .invalidJson => (⟨400, .invalidJsonBody⟩, rl.2, [])
      | .missingTool => (⟨400, .missingToolParam⟩, rl.2, [])
      | .call tool args =>
        let r := MCPServer.executeTool env settings tool args
        (⟨200, .callResult r.1⟩, rl.2, r.2)
    else (⟨404, .notFound⟩, rl.2, [])

/-- The tools with a dispatch case in the server. -/
def knownTools : List Str :=
  [ "read_note".data, "write_note".data, "search_vault".data, "list_notes".data,
    "list_tasks".data, "add_task".data, "complete_task".data ]

/-- A concrete settings fixture with approval and audit logging on. -/
def settings0 : ObsidianCCSettings := ⟨true, true, false⟩

/-- A concrete collaborator-environment fixture in which every
collaborator call succeeds and the user approves. -/
def env0 : ToolEnv := { vaultPath := "/vault".data }

/-- A concrete empty argument record. -/
def args0 : Args := {}

/-- Count of the tool-call entries in a list of audit entries. -/
def countToolCall (l : List AuditEntry) : Nat :=
  l.countP fun e => decide (e.type = AuditType.toolCall)

/-- A concrete audit entry used by witnesses. -/
def auditE0 : AuditEntry := toolCallEntry "read_note".data none true none

/-- A concrete unauthenticated token-route request arriving from a
non-loopback address. -/
def reqTok0 : Request :=
  { method := "GET".data, pathname := "/auth/token".data, remoteAddress := "10.0.0.9".data }

/-- One for a successful dispatch result, zero for a raised error. -/
def okCount : Except Str ToolResponse → Nat
  | .ok _ => 1
  | .error _ => 0

/-- Characterization of a successful validation: the input is
non-empty, non-blank, free of dangerous patterns, relative, resolves to
the vault or under it, and has no hidden segment. -/
theorem validate_valid_iff (vaultPath s : Str) :
    (PathValidator.validate vaultPath s).valid = true ↔
      (¬ s = [] ∧ ¬ jsTrim s = [] ∧ hasDangerousPattern s = false ∧
       isAbsoluteInput s = false ∧
       (pathResolve vaultPath (normalizePath s) = vaultPath ∨
        List.isPrefixOf (withSep vaultPath) (pathResolve vaultPath (normalizePath s)) = true) ∧
       hasHiddenPart (normalizePath s) = false) := by
  unfold PathValidator.validate
  split_ifs <;> simp_all <;> split_ifs <;> simp_all <;> tauto

/-- A successful validation returns the normalized input as the
sanitized path. -/
theorem validate_sanitized (vaultPath s : Str)
    (h : (PathValidator.validate vaultPath s).valid = true) :
    (PathValidator.validate vaultPath s).sanitizedPath = some (normalizePath s) := by
  revert h
  unfold PathValidator.validate
  split_ifs <;> simp_all <;> split_ifs <;> simp_all

/-- C1: every input containing a dot-dot sequence, or beginning with a
slash, a home-directory prefix, a dollar sign, or a drive letter, or
containing a NUL byte or a URL-encoded or double-URL-encoded dot-dot, is
rejected by the validator; and every non-blank input free of these
sequences and of hidden segments that resolves strictly inside the
configured root is accepted with a sanitized path that, joined to the
root, resolves inside the root. -/
theorem validate_containment (vaultPath s : Str) :
    ((containsSeq "..".data s = true ∨
      List.isPrefixOf [ '/' ] s = true ∨
      List.isPrefixOf "~/".data s = true ∨
      List.isPrefixOf "$".data s = true ∨
      isDrivePrefix s = true ∨
      s.contains nulChar = true ∨
      containsSeq "%2e%2e".data (lowerStr s) = true ∨
      containsSeq "%252e%252e".data (lowerStr s) = true) →
      (PathValidator.validate vaultPath s).valid = false)
  ∧ (¬ s = [] → ¬ jsTrim s = [] → hasDangerousPattern s = false →
     isAbsoluteInput s = false → hasHiddenPart (normalizePath s) = false →
     List.isPrefixOf (withSep vaultPath) (pathResolve vaultPath (normalizePath s)) = true →
     (PathValidator.validate vaultPath s).valid = true ∧
     (PathValidator.validate vaultPath s).sanitizedPath = some (normalizePath s) ∧
     List.isPrefixOf (withSep vaultPath)
       (pathResolve vaultPath
         ((PathValidator.validate vaultPath s).sanitizedPath.getD [])) = true) := by
  constructor
  · intro h
    by_contra hv
    rw [Bool.not_eq_false] at hv
    have hc := (validate_valid_iff vaultPath s).mp hv
    have hd := hc.2.2.1
    have ha := hc.2.2.2.1
    rcases h with h | h | h | h | h | h | h | h <;>
      simp_all [hasDangerousPattern, isAbsoluteInput]
  · intro h1 h2 h3 h4 h5 h6
    have hv : (PathValidator.validate vaultPath s).valid = true :=
      (validate_valid_iff vaultPath s).mpr ⟨h1, h2, h3, h4, Or.inr h6, h5⟩
    refine ⟨hv, validate_sanitized vaultPath s hv, ?_⟩
    rw [validate_sanitized vaultPath s hv]
    simpa using h6

/-- Witness for C1: a traversal input is rejected, and a plain note
path under the root is accepted with its normalized form. -/
theorem validate_containment_witness :
    (PathValidator.validate "/vault".data "../x".data).valid = false
  ∧ ((PathValidator.validate "/vault".data "notes/todo.md".data).valid = true ∧
     (PathValidator.validate "/vault".data "notes/todo.md".data).sanitizedPath
       = some (normalizePath "notes/todo.md".data) ∧
     List.isPrefixOf (withSep "/vault".data)
       (pathResolve "/vault".data
         ((PathValidator.validate "/vault".data
            "notes/todo.md".data).sanitizedPath.getD [])) = true) :=
  ⟨(validate_containment "/vault".data "../x".data).1 (Or.inl (by decide)),
   (validate_containment "/vault".data "notes/todo.md".data).2 (by decide) (by decide)
     (by decide) (by decide) (by decide) (by decide)⟩

/-- C2: with the root set to the vault directory, an accepted input
always resolves to the root itself or to a path under the root followed
by a separator, and in particular never to the sibling directory whose
name merely extends the root name. -/
theorem validate_root_boundary (s : Str)
    (h : (PathValidator.validate "/vault".data s).valid = true) :
    (pathResolve "/vault".data (normalizePath s) = "/vault".data ∨
     List.isPrefixOf "/vault/".data (pathResolve "/vault".data (normalizePath s)) = true)
  ∧ ¬ pathResolve "/vault".data (normalizePath s) = "/vault-evil/x".data := by
  have hc := (validate_valid_iff "/vault".data s).mp h
  have hin := hc.2.2.2.2.1
  have hw : withSep "/vault".data = "/vault/".data := by decide
  rw [hw] at hin
  refine ⟨hin, ?_⟩
  intro he
  rcases hin with h1 | h1
  · rw [he] at h1
    exact absurd h1 (by decide)
  · rw [he] at h1
    exact absurd h1 (by decide)

/-- Witness for C2: a concrete accepted input resolves under the root
and not to the evil sibling. -/
theorem validate_root_boundary_witness :
    (pathResolve "/vault".data (normalizePath "notes/a.md".data) = "/vault".data ∨
     List.isPrefixOf "/vault/".data
       (pathResolve "/vault".data (normalizePath "notes/a.md".data)) = true)
  ∧ ¬ pathResolve "/vault".data (normalizePath "notes/a.md".data) = "/vault-evil/x".data :=
  validate_root_boundary "notes/a.md".data (by decide)

/-- C10: the extension-supplying validation accepts a trailing-slash
input, appends the default extension to produce a sanitized path with a
hidden segment, and the plain validator rejects that very sanitized
path, so the validate-after-validateWithExtension round trip fails. -/
theorem validateWithExtension_roundtrip_failure :
    (PathValidator.validateWithExtension "/vault".data (some "folder/".data) true).valid = true
  ∧ (PathValidator.validateWithExtension "/vault".data (some "folder/".data) true).sanitizedPath
      = some "folder/.md".data
  ∧ (PathValidator.validate "/vault".data "folder/.md".data).valid = false := by
  decide

/-- The enabled logger maps the buffer to the appended buffer with the
oldest overflow dropped. -/
theorem auditLog_eq (logs : List AuditEntry) (e : AuditEntry) :
    AuditLogger.log true logs e = (logs ++ [e]).drop (logs.length + 1 - maxLogSize) := by
  unfold AuditLogger.log
  simp only [if_true]
  by_cases h2 : maxLogSize < (logs ++ [e]).length
  · rw [if_pos h2]
    simp [List.length_append]
  · rw [if_neg h2]
    simp only [List.length_append, List.length_cons, List.length_nil, Nat.not_lt] at h2
    rw [Nat.sub_eq_zero_of_le (by omega)]
    simp

/-- C8: after every log call the audit buffer holds at most the
capacity bound, and when logging is enabled the resulting buffer is
exactly the appended buffer with the oldest overflow entries dropped,
so eviction is first-in-first-out and the survivors keep insertion
order. -/
theorem auditLog_bounded_fifo (auditLogging : Bool) (logs : List AuditEntry) (e : AuditEntry)
    (h : logs.length ≤ maxLogSize) :
    (AuditLogger.log auditLogging logs e).length ≤ maxLogSize
  ∧ (auditLogging = true →
     AuditLogger.log auditLogging logs e
       = (logs ++ [e]).drop (logs.length + 1 - maxLogSize)) := by
  constructor
  · cases auditLogging with
    | false => simpa [AuditLogger.log] using h
    | true =>
      rw [auditLog_eq]
      simp only [List.length_drop, List.length_append, List.length_cons, List.length_nil]
      omega
  · intro hb
    subst hb
    exact auditLog_eq logs e

/-- Witness for C8: logging into an empty enabled buffer stays within
the bound. -/
theorem auditLog_bounded_fifo_witness :
    (AuditLogger.log true [] auditE0).length ≤ maxLogSize :=
  (auditLog_bounded_fifo true [] auditE0 (by decide)).1

/-- C4: a pending approval whose timeout timer fires resolves to the
timed-out outcome carrying the boolean false, and when the executor
observes a denial it raises the operation-denied error and its result
is independent of the guarded action, which is therefore never
invoked. -/
theorem approval_timeout_denies_and_blocks :
    (∀ (s : GuardState) (id : Str), id ∈ s.pending →
      OperationGuard.step s (.timeoutFire id)
        = (⟨s.pending.erase id⟩, [(id, .timedOut)]) ∧
      outcomeValue .timedOut = false)
  ∧ (∀ (settings : ObsidianCCSettings) (op : MCPOperation)
       (action : List AuditEntry × Except Str ToolResponse),
      OperationGuard.requiresApproval settings op = true →
      (OperationGuard.executeWithApproval settings false op action).2
        = Except.error "Operation denied by user".data ∧
      ∀ action2, OperationGuard.executeWithApproval settings false op action
        = OperationGuard.executeWithApproval settings false op action2) := by
  constructor
  · intro s id h
    exact ⟨by simp [OperationGuard.step, h], rfl⟩
  · intro settings op action h
    constructor
    · simp [OperationGuard.executeWithApproval, h]
    · intro action2
      simp [OperationGuard.executeWithApproval, h]

/-- Witness for C4: a concrete pending id times out to a denial, and a
concrete denied write is blocked whatever the action would return. -/
theorem approval_timeout_denies_and_blocks_witness :
    (OperationGuard.step ⟨[ "a1".data ]⟩ (.timeoutFire "a1".data)
       = (⟨List.erase [ "a1".data ] "a1".data⟩, [( "a1".data, .timedOut)]) ∧
     outcomeValue .timedOut = false)
  ∧ ((OperationGuard.executeWithApproval settings0 false ⟨"write_note".data, none, none, 0, none⟩
        ([], .ok ⟨false, []⟩)).2 = Except.error "Operation denied by user".data) :=
  ⟨(approval_timeout_denies_and_blocks.1 ⟨[ "a1".data ]⟩ "a1".data (by decide)),
   (approval_timeout_denies_and_blocks.2 settings0 ⟨"write_note".data, none, none, 0, none⟩
      ([], .ok ⟨false, []⟩) (by decide)).1⟩

/-- A run of the approval state machine emits no resolution for an id
that is not pending, since no event ever adds a pending entry. -/
theorem run_zero_of_notMem (id : Str) :
    ∀ (evs : List GuardEvent) (s : GuardState), id ∉ s.pending →
    ((OperationGuard.run s evs).2.countP fun r => decide (r.1 = id)) = 0 := by
  intro evs
  induction evs with
  | nil =>
    intro s h
    simp [OperationGuard.run]
  | cons e rest ih =>
    intro s h
    cases e with
    | timeoutFire j =>
      by_cases hj : j ∈ s.pending
      · have hji : ¬ j = id := by
          rintro rfl
          exact h hj
        have hid : id ∉ (List.erase s.pending j) := fun hm => h (List.mem_of_mem_erase hm)
        simp [OperationGuard.run, OperationGuard.step, hj, List.countP_append,
          List.countP_cons, hji, ih ⟨s.pending.erase j⟩ hid]
      · simp [OperationGuard.run, OperationGuard.step, hj, ih s h]
    | userRespond j b =>
      by_cases hj : j ∈ s.pending
      · have hji : ¬ j = id := by
          rintro rfl
          exact h hj
        have hid : id ∉ (List.erase s.pending j) := fun hm => h (List.mem_of_mem_erase hm)
        simp [OperationGuard.run, OperationGuard.step, hj, List.countP_append,
          List.countP_cons, hji, ih ⟨s.pending.erase j⟩ hid]
      · simp [OperationGuard.run, OperationGuard.step, hj, ih s h]
    | cancelAll =>
      have hmap : ((s.pending.map fun j => (j, ApprovalOutcome.denied)).countP
          fun r => decide (r.1 = id)) = 0 := by
        rw [List.countP_map]
        have : ∀ x ∈ s.pending, ¬ ((fun r : Str × ApprovalOutcome => decide (r.1 = id)) ∘
            fun j => (j, ApprovalOutcome.denied)) x = true := by
          intro x hx
          simp only [Function.comp, decide_eq_true_eq]
          rintro rfl
          exact h hx
        exact List.countP_eq_zero.mpr this
      have hz := ih ⟨[]⟩ (by simp)
      simp [OperationGuard.run, OperationGuard.step, List.countP_append, hmap, hz]

/-- C5: starting from a state in which the approval id is pending and
the pending map has no duplicate ids, any sequence of racing resolution
events (timer, user decision, shutdown sweep) emits exactly one
resolution for that id when the sequence contains a resolver for it and
none otherwise: the first resolver to find the entry wins, removes it,
and every later attempt is a no-op. -/
theorem approval_exactly_once (id : Str) :
    ∀ (evs : List GuardEvent) (s : GuardState), id ∈ s.pending → s.pending.Nodup →
    ((OperationGuard.run s evs).2.countP fun r => decide (r.1 = id))
      = (if evs.any (resolvesId id) then 1 else 0) := by
  intro evs
  induction evs with
  | nil =>
    intro s hm hd
    simp [OperationGuard.run]
  | cons e rest ih =>
    intro s hm hd
    cases e with
    | timeoutFire j =>
      by_cases hji : j = id
      · subst hji
        have hid : j ∉ (List.erase s.pending j) := hd.not_mem_erase
        simp [OperationGuard.run, OperationGuard.step, hm, List.countP_append,
          List.countP_cons, resolvesId,
          run_zero_of_notMem j rest ⟨s.pending.erase j⟩ hid]
      · by_cases hj : j ∈ s.pending
        · have hmem : id ∈ List.erase s.pending j :=
            (hd.mem_erase_iff.mpr ⟨fun hh => hji hh.symm, hm⟩)
          simp [OperationGuard.run, OperationGuard.step, hj, List.countP_append,
            List.countP_cons, hji, resolvesId,
            ih ⟨s.pending.erase j⟩ hmem (hd.erase j)]
        · simp [OperationGuard.run, OperationGuard.step, hj, resolvesId, hji,
            ih s hm hd]
    | userRespond j b =>
      by_cases hji : j = id
      · subst hji
        have hid : j ∉ (List.erase s.pending j) := hd.not_mem_erase
        simp [OperationGuard.run, OperationGuard.step, hm, List.countP_append,
          List.countP_cons, resolvesId,
          run_zero_of_notMem j rest ⟨s.pending.erase j⟩ hid]
      · by_cases hj : j ∈ s.pending
        · have hmem : id ∈ List.erase s.pending j :=
            (hd.mem_erase_iff.mpr ⟨fun hh => hji hh.symm, hm⟩)
          simp [OperationGuard.run, OperationGuard.step, hj, List.countP_append,
            List.countP_cons, hji, resolvesId,
            ih ⟨s.pending.erase j⟩ hmem (hd.erase j)]
        · simp [OperationGuard.run, OperationGuard.step, hj, resolvesId, hji,
            ih s hm hd]
    | cancelAll =>
      have hmap : ((s.pending.map fun j => (j, ApprovalOutcome.denied)).countP
          fun r => decide (r.1 = id)) = 1 := by
        rw [List.countP_map]
        have heq : ((fun r : Str × ApprovalOutcome => decide (r.1 = id)) ∘
            fun j => (j, ApprovalOutcome.denied)) = fun j => decide (j = id) := by
          funext j
          rfl
        rw [heq]
        exact List.count_eq_one_of_mem hd hm
      have hz := run_zero_of_notMem id rest ⟨[]⟩ (by simp)
      simp [OperationGuard.run, OperationGuard.step, List.countP_append, hmap, hz, resolvesId]

/-- Witness for C5: with one pending id, a user decision followed by a
racing timer fire yields exactly one resolution. -/
theorem approval_exactly_once_witness :
    ((OperationGuard.run ⟨[ "a1".data ]⟩
        [ .userRespond "a1".data true, .timeoutFire "a1".data ]).2.countP
      fun r => decide (r.1 = "a1".data)) = 1 := by
  have h := approval_exactly_once "a1".data
    [ .userRespond "a1".data true, .timeoutFire "a1".data ]
    ⟨[ "a1".data ]⟩ (by decide) (by decide)
  rw [h]
  decide

/-- Looking up the client just set returns the new record. -/
theorem lookup_setRate_self (m : RateMap) (c : Str) (v : RateRecord) :
    lookupRate (setRate m c v) c = some v := by
  induction m with
  | nil => simp [setRate, lookupRate]
  | cons kv rest ih =>
    by_cases h : kv.1 = c
    · simp [setRate, lookupRate, h]
    · simp [setRate, lookupRate, h, ih]

/-- Setting one client leaves every other client unchanged. -/
theorem lookup_setRate_ne (m : RateMap) (b c : Str) (v : RateRecord) (h : ¬ b = c) :
    lookupRate (setRate m c v) b = lookupRate m b := by
  have hb : ¬ c = b := fun hh => h hh.symm
  induction m with
  | nil => simp [setRate, lookupRate, hb]
  | cons kv rest ih =>
    by_cases hk : kv.1 = c
    · have hkb : ¬ kv.1 = b := by rw [hk]; exact hb
      simp [setRate, lookupRate, hk, hb, hkb]
    · by_cases hkb : kv.1 = b
      · simp [setRate, lookupRate, hk, hkb, h]
      · simp [setRate, lookupRate, hk, hkb, ih]

/-- Setting the same client twice keeps only the second record. -/
theorem setRate_setRate (m : RateMap) (c : Str) (v w : RateRecord) :
    setRate (setRate m c v) c w = setRate m c w := by
  induction m with
  | nil => simp [setRate]
  | cons kv rest ih =>
    by_cases h : kv.1 = c
    · simp [setRate, h]
    · simp [setRate, h, ih]

/-- Re-setting the record a client already holds leaves the table
unchanged. -/
theorem setRate_lookup_eq (m : RateMap) (c : Str) (v : RateRecord)
    (h : lookupRate m c = some v) : setRate m c v = m := by
  induction m with
  | nil => simp [lookupRate] at h
  | cons kv rest ih =>
    cases kv with
    | mk k w =>
      by_cases hk : k = c
      · subst hk
        simp only [lookupRate, if_pos rfl] at h
        injection h with h
        simp [setRate, h]
      · simp only [lookupRate, hk, ite_false] at h
        simp [setRate, hk, ih h]

/-- Requests of one client inside its window each increment the count
while admitted, as long as the budget is not exhausted. -/
theorem processRequests_within_window (A : Str) (R : Nat) :
    ∀ (ts : List Nat) (m : RateMap) (c : Nat),
    lookupRate m A = some ⟨c, R⟩ → (∀ t ∈ ts, t ≤ R) → c + ts.length ≤ rateLimit →
    processRequests m (ts.map fun t => (A, t))
      = (setRate m A ⟨c + ts.length, R⟩, List.replicate ts.length true) := by
  intro ts
  induction ts with
  | nil =>
    intro m c h1 h2 h3
    simp [processRequests, setRate_lookup_eq m A ⟨c, R⟩ h1]
  | cons t ts ih =>
    intro m c h1 h2 h3
    have ht : t ≤ R := h2 t (by simp)
    have hnr : ¬ R < t := Nat.not_lt.mpr ht
    have hcount : ¬ rateLimit ≤ c := by
      simp only [List.length_cons] at h3
      omega
    have hstep : MCPServer.checkRateLimit m A t = (true, setRate m A ⟨c + 1, R⟩) := by
      simp [MCPServer.checkRateLimit, h1, hnr, hcount]
    have hih := ih (setRate m A ⟨c + 1, R⟩) (c + 1)
      (lookup_setRate_self m A ⟨c + 1, R⟩)
      (fun u hu => h2 u (by simp [hu]))
      (by simp only [List.length_cons] at h3; omega)
    have harith : c + 1 + ts.length = c + (ts.length + 1) := by omega
    simp only [List.map_cons, processRequests, hstep, hih, setRate_setRate, harith,
      List.length_cons, List.replicate_succ]

/-- C7: from a table with no record for the client, the first request
at some time and the next 99 requests inside the window are all
admitted, leaving the client at the full budget; a further request
inside the window is rejected without changing the table; a different
fresh client is admitted in the same window; a request after the window
closes is admitted with a fresh full window; and a rate-limited request
is answered 429 by the pipeline before any authentication check. -/
theorem rateLimit_window (m : RateMap) (A : Str) (t1 : Nat) (ts : List Nat)
    (h0 : lookupRate m A = none) (hlen : ts.length = 99)
    (hts : ∀ t ∈ ts, t ≤ t1 + rateWindow) :
    (MCPServer.checkRateLimit m A t1).1 = true
  ∧ processRequests (MCPServer.checkRateLimit m A t1).2 (ts.map fun t => (A, t))
      = (setRate m A ⟨rateLimit, t1 + rateWindow⟩, List.replicate 99 true)
  ∧ (∀ t, t ≤ t1 + rateWindow →
      MCPServer.checkRateLimit (setRate m A ⟨rateLimit, t1 + rateWindow⟩) A t
        = (false, setRate m A ⟨rateLimit, t1 + rateWindow⟩))
  ∧ (∀ B, ¬ B = A → lookupRate m B = none → ∀ t,
      (MCPServer.checkRateLimit (setRate m A ⟨rateLimit, t1 + rateWindow⟩) B t).1 = true)
  ∧ (∀ t2, t1 + rateWindow < t2 →
      MCPServer.checkRateLimit (setRate m A ⟨rateLimit, t1 + rateWindow⟩) A t2
        = (true, setRate (setRate m A ⟨rateLimit, t1 + rateWindow⟩) A ⟨1, t2 + rateWindow⟩))
  ∧ (∀ (token : Str) (env : ToolEnv) (settings : ObsidianCCSettings)
       (rc : RateMap) (now : Nat) (req : Request),
      ¬ req.method = "OPTIONS".data →
      (MCPServer.checkRateLimit rc req.remoteAddress now).1 = false →
      (MCPServer.handleRequest token env settings rc now req).1.status = 429) := by
  have hstep1 : MCPServer.checkRateLimit m A t1 = (true, setRate m A ⟨1, t1 + rateWindow⟩) := by
    simp [MCPServer.checkRateLimit, h0]
  refine ⟨by rw [hstep1], ?_, ?_, ?_, ?_, ?_⟩
  · rw [hstep1]
    have h := processRequests_within_window A (t1 + rateWindow) ts
      (setRate m A ⟨1, t1 + rateWindow⟩) 1
      (lookup_setRate_self m A ⟨1, t1 + rateWindow⟩) hts
      (by rw [hlen]; decide)
    rw [h, setRate_setRate, hlen]
    have h100 : 1 + 99 = rateLimit := by decide
    rw [h100]
  · intro t ht
    have hnr : ¬ t1 + rateWindow < t := Nat.not_lt.mpr ht
    simp [MCPServer.checkRateLimit, lookup_setRate_self, hnr]
  · intro B hB hBnone t
    simp [MCPServer.checkRateLimit, lookup_setRate_ne m B A _ hB, hBnone]
  · intro t2 ht2
    simp [MCPServer.checkRateLimit, lookup_setRate_self, ht2]
  · intro token env settings rc now req hm hrl
    unfold MCPServer.handleRequest
    rw [if_neg hm]
    simp only [hrl]
    simp

/-- Witness for C7: after one hundred admitted requests at time zero,
the next request inside the window is rejected. -/
theorem rateLimit_window_witness :
    MCPServer.checkRateLimit (setRate [] "cli".data ⟨rateLimit, 0 + rateWindow⟩)
        "cli".data 60000
      = (false, setRate [] "cli".data ⟨rateLimit, 0 + rateWindow⟩) :=
  ((rateLimit_window [] "cli".data 0 (List.replicate 99 0) rfl (by decide)
      (fun t ht => by rw [List.eq_of_mem_replicate ht]; decide)).2.2.1) 60000 (by decide)

/-- C3 counterexample: a GET of the token route from a non-loopback
address with no authorization header satisfies every condition of the
claim (it is not the health probe and not the token route from a
loopback address, the rate limit passes, and the bearer token is
absent), yet the server answers 403, not 401. -/
theorem auth_boundary_counterexample :
    (reqTok0.method = "GET".data ∨ reqTok0.method = "POST".data)
  ∧ (MCPServer.checkRateLimit [] reqTok0.remoteAddress 0).1 = true
  ∧ ¬ reqTok0.pathname = "/health".data
  ∧ ¬ (reqTok0.pathname = "/auth/token".data ∧ isLoopback reqTok0.remoteAddress = true)
  ∧ badAuth reqTok0.authorization "tok".data = true
  ∧ (MCPServer.handleRequest "tok".data env0 settings0 [] 0 reqTok0).1.status = 403
  ∧ ¬ (MCPServer.handleRequest "tok".data env0 settings0 [] 0 reqTok0).1.status = 401 := by
  decide

/-- C3 amended: among requests that pass the preflight, rate-limit and
method gates, every route other than the health probe and the token
bootstrap route answers a missing or mismatched bearer token with 401,
whatever the session token is and whether or not the token route was
ever called; the token route itself, reached from a non-loopback
address, is rejected with 403 instead. -/
theorem auth_boundary_amended (token : Str) (env : ToolEnv) (settings : ObsidianCCSettings)
    (m : RateMap) (now : Nat) (req : Request)
    (hm : req.method = "GET".data ∨ req.method = "POST".data)
    (hrl : (MCPServer.checkRateLimit m req.remoteAddress now).1 = true)
    (hh : ¬ req.pathname = "/health".data)
    (ha : badAuth req.authorization token = true) :
    (¬ (req.pathname = "/auth/token".data ∧ req.method = "GET".data) →
      (MCPServer.handleRequest token env settings m now req).1.status = 401)
  ∧ ((req.pathname = "/auth/token".data ∧ req.method = "GET".data ∧
      isLoopback req.remoteAddress = false) →
      (MCPServer.handleRequest token env settings m now req).1.status = 403) := by
  have hopt : ¬ req.method = "OPTIONS".data := by
    rcases hm with h | h <;> rw [h] <;> decide
  have hmg : ¬ (¬ req.method = "POST".data ∧ ¬ req.method = "GET".data) := by tauto
  constructor
  · intro htok
    unfold MCPServer.handleRequest
    simp [hopt, hrl, hmg, hh, htok, ha]
  · rintro ⟨hp, hg, hnl⟩
    unfold MCPServer.handleRequest
    simp [hopt, hrl, hmg, hh, hp, hg, hnl]

/-- Witness for the amended C3: a concrete unauthenticated request to
the tool-listing route is answered 401. -/
theorem auth_boundary_amended_witness :
    (MCPServer.handleRequest "tok".data env0 settings0 [] 0
      { method := "GET".data, pathname := "/mcp/tools".data,
        remoteAddress := "127.0.0.1".data }).1.status = 401 :=
  (auth_boundary_amended "tok".data env0 settings0 [] 0
    { method := "GET".data, pathname := "/mcp/tools".data,
      remoteAddress := "127.0.0.1".data }
    (Or.inl rfl) (by decide) (by decide) (by decide)).1 (by decide)

/-- The read-note handler logs exactly one tool-call entry on success
and none on a raised error, every entry naming the tool. -/
theorem readNote_shape (env : ToolEnv) (settings : ObsidianCCSettings) (path : Option Str)
    (hlog : settings.auditLogging = true) :
    countToolCall (MCPServer.readNote env settings path).1
      = okCount (MCPServer.readNote env settings path).2
  ∧ (∀ e ∈ (MCPServer.readNote env settings path).1,
      e.tool = some "read_note".data)
  ∧ (∀ e ∈ (MCPServer.readNote env settings path).1,
      e.type = AuditType.toolCall → e.success = true) := by
  unfold MCPServer.readNote
  dsimp only
  rcases henv : env.readResult with e | u <;> split_ifs <;>
    simp_all [countToolCall, okCount, logIf, toolCallEntry] <;> split_ifs <;>
    simp_all [countToolCall, okCount, logIf, toolCallEntry]

/-- The write-note handler logs exactly one tool-call entry on success
and none on a raised error, every entry naming the tool. -/
theorem writeNote_shape (env : ToolEnv) (settings : ObsidianCCSettings)
    (path : Option Str) (mode : Option Str) (hlog : settings.auditLogging = true) :
    countToolCall (MCPServer.writeNote env settings path mode).1
      = okCount (MCPServer.writeNote env settings path mode).2
  ∧ (∀ e ∈ (MCPServer.writeNote env settings path mode).1,
      e.tool = some "write_note".data)
  ∧ (∀ e ∈ (MCPServer.writeNote env settings path mode).1,
      e.type = AuditType.toolCall → e.success = true) := by
  unfold MCPServer.writeNote
  dsimp only
  rcases henv : env.writeResult with e | u <;> split_ifs <;>
    simp_all [countToolCall, okCount, logIf, toolCallEntry] <;> split_ifs <;>
    simp_all [countToolCall, okCount, logIf, toolCallEntry]

/-- The search handler, when the collaborator is available, logs
exactly one tool-call entry on success and none on a raised error. -/
theorem searchVault_shape (env : ToolEnv) (settings : ObsidianCCSettings)
    (hlog : settings.auditLogging = true) (hav : env.qmdAvailable = true) :
    countToolCall (MCPServer.searchVault env settings).1
      = okCount (MCPServer.searchVault env settings).2
  ∧ (∀ e ∈ (MCPServer.searchVault env settings).1,
      e.tool = some "search_vault".data)
  ∧ (∀ e ∈ (MCPServer.searchVault env settings).1,
      e.type = AuditType.toolCall → e.success = true) := by
  unfold MCPServer.searchVault
  dsimp only
  rcases henv : env.searchResult with e | u <;> split_ifs <;>
    simp_all [countToolCall, okCount, logIf, toolCallEntry] <;> split_ifs <;>
    simp_all [countToolCall, okCount, logIf, toolCallEntry]

/-- The list-notes handler logs exactly one tool-call entry on success
and none on a raised error. -/
theorem listNotes_shape (env : ToolEnv) (settings : ObsidianCCSettings) (folder : Str)
    (hlog : settings.auditLogging = true) :
    countToolCall (MCPServer.listNotes env settings folder).1
      = okCount (MCPServer.listNotes env settings folder).2
  ∧ (∀ e ∈ (MCPServer.listNotes env settings folder).1,
      e.tool = some "list_notes".data)
  ∧ (∀ e ∈ (MCPServer.listNotes env settings folder).1,
      e.type = AuditType.toolCall → e.success = true) := by
  unfold MCPServer.listNotes
  dsimp only
  split_ifs <;> simp_all [countToolCall, okCount, logIf, toolCallEntry]

/-- The list-tasks handler logs exactly one tool-call entry on success
and none on a raised error. -/
theorem listTasks_shape (env : ToolEnv) (settings : ObsidianCCSettings)
    (hlog : settings.auditLogging = true) :
    countToolCall (MCPServer.listTasks env settings).1
      = okCount (MCPServer.listTasks env settings).2
  ∧ (∀ e ∈ (MCPServer.listTasks env settings).1,
      e.tool = some "list_tasks".data)
  ∧ (∀ e ∈ (MCPServer.listTasks env settings).1,
      e.type = AuditType.toolCall → e.success = true) := by
  unfold MCPServer.listTasks
  dsimp only
  rcases henv : env.tasksQueryResult with e | u <;>
    simp_all [countToolCall, okCount, logIf, toolCallEntry]

/-- The add-task handler logs exactly one tool-call entry on success
and none on a raised error. -/
theorem addTask_shape (env : ToolEnv) (settings : ObsidianCCSettings) (notePath : Option Str)
    (hlog : settings.auditLogging = true) :
    countToolCall (MCPServer.addTask env settings notePath).1
      = okCount (MCPServer.addTask env settings notePath).2
  ∧ (∀ e ∈ (MCPServer.addTask env settings notePath).1,
      e.tool = some "add_task".data)
  ∧ (∀ e ∈ (MCPServer.addTask env settings notePath).1,
      e.type = AuditType.toolCall → e.success = true) := by
  unfold MCPServer.addTask
  dsimp only
  rcases henv : env.addTaskResult with e | u <;> split_ifs <;>
    simp_all [countToolCall, okCount, logIf, toolCallEntry] <;> split_ifs <;>
    simp_all [countToolCall, okCount, logIf, toolCallEntry]

/-- The complete-task handler logs exactly one tool-call entry on
success and none on a raised error. -/
theorem completeTask_shape (env : ToolEnv) (settings : ObsidianCCSettings) (taskId : Option Str)
    (hlog : settings.auditLogging = true) :
    countToolCall (MCPServer.completeTask env settings taskId).1
      = okCount (MCPServer.completeTask env settings taskId).2
  ∧ (∀ e ∈ (MCPServer.completeTask env settings taskId).1,
      e.tool = some "complete_task".data)
  ∧ (∀ e ∈ (MCPServer.completeTask env settings taskId).1,
      e.type = AuditType.toolCall → e.success = true) := by
  unfold MCPServer.completeTask
  dsimp only
  rcases henv : env.completeTaskResult with e | u <;>
    simp_all [countToolCall, okCount, logIf, toolCallEntry]

/-- Wrapping an action in the approval guard preserves the audit
shape: the approval entries are not tool-call entries, a denial raises
before the action contributes, and every entry names the operation
tool. -/
theorem executeWithApproval_shape (settings : ObsidianCCSettings) (approved : Bool)
    (op : MCPOperation) (action : List AuditEntry × Except Str ToolResponse)
    (hlog : settings.auditLogging = true)
    (hshape : countToolCall action.1 = okCount action.2)
    (hnames : ∀ e ∈ action.1, e.tool = some op.tool)
    (hsucc : ∀ e ∈ action.1, e.type = AuditType.toolCall → e.success = true) :
    countToolCall (OperationGuard.executeWithApproval settings approved op action).1
      = okCount (OperationGuard.executeWithApproval settings approved op action).2
  ∧ (∀ e ∈ (OperationGuard.executeWithApproval settings approved op action).1,
      e.tool = some op.tool)
  ∧ (∀ e ∈ (OperationGuard.executeWithApproval settings approved op action).1,
      e.type = AuditType.toolCall → e.success = true) := by
  unfold OperationGuard.executeWithApproval
  split_ifs <;>
    simp_all [countToolCall, okCount, logIf, approvalRequestEntry, approvalResponseEntry,
      List.countP_append]

/-- The catch wrapper of executeTool turns any dispatch of the audit
shape into exactly one tool-call entry naming the tool: a successful
dispatch already logged it, and a raised error is logged by the catch
handler with the top-level path argument of the call, so every failure
entry carries that argument and no other. -/
theorem executeTool_audit_of_shape (env : ToolEnv) (settings : ObsidianCCSettings)
    (tool : Str) (args : Args) (hlog : settings.auditLogging = true)
    (hshape : countToolCall (MCPServer.dispatchTool env settings tool args).1
      = okCount (MCPServer.dispatchTool env settings tool args).2)
    (hnames : ∀ e ∈ (MCPServer.dispatchTool env settings tool args).1,
      e.tool = some tool)
    (hsucc : ∀ e ∈ (MCPServer.dispatchTool env settings tool args).1,
      e.type = AuditType.toolCall → e.success = true) :
    countToolCall (MCPServer.executeTool env settings tool args).2 = 1
  ∧ ∀ e ∈ (MCPServer.executeTool env settings tool args).2,
      e.type = AuditType.toolCall →
        e.tool = some tool ∧ (e.success = false → e.path = args.path) := by
  unfold MCPServer.executeTool
  rcases hd : MCPServer.dispatchTool env settings tool args with ⟨logs, res⟩
  rw [hd] at hshape hnames hsucc
  cases res with
  | ok resp =>
    simp only at hshape hnames hsucc
    constructor
    · simpa [okCount] using hshape
    · intro e he ht
      refine ⟨hnames e he, fun hf => ?_⟩
      rw [hsucc e he ht] at hf
      exact absurd hf (by decide)
  | error er =>
    simp only at hshape hnames hsucc
    constructor
    · simp [countToolCall, List.countP_append, logIf, hlog, toolCallEntry]
      simpa [countToolCall, okCount] using hshape
    · intro e he ht
      simp only [List.mem_append] at he
      rcases he with he | he
      · refine ⟨hnames e he, fun hf => ?_⟩
        rw [hsucc e he ht] at hf
        exact absurd hf (by decide)
      · simp only [logIf, hlog, if_true, List.mem_singleton] at he
        rw [he]
        exact ⟨rfl, fun _ => rfl⟩

/-- Dispatch equation for the read-note tool. -/
theorem dispatch_read_note (env : ToolEnv) (settings : ObsidianCCSettings) (args : Args) :
    MCPServer.dispatchTool env settings "read_note".data args
      = MCPServer.readNote env settings args.path := rfl

/-- Dispatch equation for the write-note tool. -/
theorem dispatch_write_note (env : ToolEnv) (settings : ObsidianCCSettings) (args : Args) :
    MCPServer.dispatchTool env settings "write_note".data args
      = OperationGuard.executeWithApproval settings env.approved
          ⟨"write_note".data, args.path, args.mode, 0, none⟩
          (MCPServer.writeNote env settings args.path args.mode) := rfl

/-- Dispatch equation for the search tool. -/
theorem dispatch_search_vault (env : ToolEnv) (settings : ObsidianCCSettings) (args : Args) :
    MCPServer.dispatchTool env settings "search_vault".data args
      = MCPServer.searchVault env settings := rfl

/-- Dispatch equation for the list-notes tool. -/
theorem dispatch_list_notes (env : ToolEnv) (settings : ObsidianCCSettings) (args : Args) :
    MCPServer.dispatchTool env settings "list_notes".data args
      = MCPServer.listNotes env settings (args.folder.getD []) := rfl

/-- Dispatch equation for the list-tasks tool. -/
theorem dispatch_list_tasks (env : ToolEnv) (settings : ObsidianCCSettings) (args : Args) :
    MCPServer.dispatchTool env settings "list_tasks".data args
      = MCPServer.listTasks env settings := rfl

/-- Dispatch equation for the add-task tool. -/
theorem dispatch_add_task (env : ToolEnv) (settings : ObsidianCCSettings) (args : Args) :
    MCPServer.dispatchTool env settings "add_task".data args
      = OperationGuard.executeWithApproval settings env.approved
          ⟨"add_task".data, args.path, args.mode, 0, none⟩
          (MCPServer.addTask env settings args.notePath) := rfl

/-- Dispatch equation for the complete-task tool. -/
theorem dispatch_complete_task (env : ToolEnv) (settings : ObsidianCCSettings) (args : Args) :
    MCPServer.dispatchTool env settings "complete_task".data args
      = OperationGuard.executeWithApproval settings env.approved
          ⟨"complete_task".data, args.path, args.mode, 0, none⟩
          (MCPServer.completeTask env settings args.taskId) := rfl

/-- C6 counterexample: with audit logging enabled, a dispatched call of
an unknown tool and a search call with the collaborator unavailable
each produce no tool-call audit entry at all, not exactly one; and an
approved add-task call whose task-store write fails, with the note path
argument present, logs its single tool-call entry with no path at all,
so the failing note-path argument is not included in the audit entry. -/
theorem audit_exactly_one_counterexample :
    settings0.auditLogging = true
  ∧ ¬ countToolCall (MCPServer.executeTool env0 settings0 "bogus_tool".data args0).2 = 1
  ∧ ¬ countToolCall (MCPServer.executeTool { env0 with qmdAvailable := false } settings0
        "search_vault".data args0).2 = 1
  ∧ ({ args0 with notePath := some "a.md".data } : Args).notePath = some "a.md".data
  ∧ countToolCall (MCPServer.executeTool
        { env0 with addTaskResult := .error "disk full".data } settings0
        "add_task".data { args0 with notePath := some "a.md".data }).2 = 1
  ∧ ∀ e ∈ (MCPServer.executeTool
        { env0 with addTaskResult := .error "disk full".data } settings0
        "add_task".data { args0 with notePath := some "a.md".data }).2,
      e.type = AuditType.toolCall → e.path = none := by
  decide

/-- C6 amended: with audit logging enabled, every dispatched call of a
known tool, except a search call while the search collaborator is
unavailable, produces exactly one tool-call audit entry; every
tool-call entry produced carries the tool name, and a failure entry
carries exactly the top-level path argument of the call, so a failed
add-task or complete-task call omits its failing note path or task id;
a call of an unknown tool, like the excepted search case, produces no
tool-call audit entry. -/
theorem audit_exactly_one_amended (env : ToolEnv) (settings : ObsidianCCSettings)
    (tool : Str) (args : Args) (hlog : settings.auditLogging = true) :
    (tool ∈ knownTools → ¬ (tool = "search_vault".data ∧ env.qmdAvailable = false) →
      countToolCall (MCPServer.executeTool env settings tool args).2 = 1 ∧
      ∀ e ∈ (MCPServer.executeTool env settings tool args).2,
        e.type = AuditType.toolCall →
          e.tool = some tool ∧ (e.success = false → e.path = args.path))
  ∧ (¬ tool ∈ knownTools →
      countToolCall (MCPServer.executeTool env settings tool args).2 = 0) := by
  constructor
  · intro hk hs
    simp only [knownTools, List.mem_cons, List.not_mem_nil, or_false] at hk
    rcases hk with rfl | rfl | rfl | rfl | rfl | rfl | rfl
    · have h := readNote_shape env settings args.path hlog
      exact executeTool_audit_of_shape env settings _ args hlog
        (by rw [dispatch_read_note]; exact h.1)
        (by rw [dispatch_read_note]; exact h.2.1)
        (by rw [dispatch_read_note]; exact h.2.2)
    · have h := writeNote_shape env settings args.path args.mode hlog
      have hw := executeWithApproval_shape settings env.approved
        ⟨"write_note".data, args.path, args.mode, 0, none⟩
        (MCPServer.writeNote env settings args.path args.mode) hlog h.1 h.2.1 h.2.2
      exact executeTool_audit_of_shape env settings _ args hlog
        (by rw [dispatch_write_note]; exact hw.1)
        (by rw [dispatch_write_note]; exact hw.2.1)
        (by rw [dispatch_write_note]; exact hw.2.2)
    · have hav : env.qmdAvailable = true := by
        rcases Bool.eq_false_or_eq_true env.qmdAvailable with ht | hf
        · exact ht
        · exact absurd ⟨rfl, hf⟩ hs
      have h := searchVault_shape env settings hlog hav
      exact executeTool_audit_of_shape env settings _ args hlog
        (by rw [dispatch_search_vault]; exact h.1)
        (by rw [dispatch_search_vault]; exact h.2.1)
        (by rw [dispatch_search_vault]; exact h.2.2)
    · have h := listNotes_shape env settings (args.folder.getD []) hlog
      exact executeTool_audit_of_shape env settings _ args hlog
        (by rw [dispatch_list_notes]; exact h.1)
        (by rw [dispatch_list_notes]; exact h.2.1)
        (by rw [dispatch_list_notes]; exact h.2.2)
    · have h := listTasks_shape env settings hlog
      exact executeTool_audit_of_shape env settings _ args hlog
        (by rw [dispatch_list_tasks]; exact h.1)
        (by rw [dispatch_list_tasks]; exact h.2.1)
        (by rw [dispatch_list_tasks]; exact h.2.2)
    · have h := addTask_shape env settings args.notePath hlog
      have hw := executeWithApproval_shape settings env.approved
        ⟨"add_task".data, args.path, args.mode, 0, none⟩
        (MCPServer.addTask env settings args.notePath) hlog h.1 h.2.1 h.2.2
      exact executeTool_audit_of_shape env settings _ args hlog
        (by rw [dispatch_add_task]; exact hw.1)
        (by rw [dispatch_add_task]; exact hw.2.1)
        (by rw [dispatch_add_task]; exact hw.2.2)
    · have h := completeTask_shape env settings args.taskId hlog
      have hw := executeWithApproval_shape settings env.approved
        ⟨"complete_task".data, args.path, args.mode, 0, none⟩
        (MCPServer.completeTask env settings args.taskId) hlog h.1 h.2.1 h.2.2
      exact executeTool_audit_of_shape env settings _ args hlog
        (by rw [dispatch_complete_task]; exact hw.1)
        (by rw [dispatch_complete_task]; exact hw.2.1)
        (by rw [dispatch_complete_task]; exact hw.2.2)
  · intro hk
    simp only [knownTools, List.mem_cons, List.not_mem_nil, or_false] at hk
    push_neg at hk
    obtain ⟨h1, h2, h3, h4, h5, h6, h7⟩ := hk
    unfold MCPServer.executeTool MCPServer.dispatchTool
    rw [if_neg h1, if_neg h2, if_neg h3, if_neg h4, if_neg h5, if_neg h6, if_neg h7]
    simp [countToolCall]

/-- Witness for the amended C6: a concrete approved write produces
exactly one tool-call audit entry. -/
theorem audit_exactly_one_amended_witness :
    countToolCall (MCPServer.executeTool env0 settings0 "write_note".data
      { args0 with path := some "a.md".data }).2 = 1 :=
  ((audit_exactly_one_amended env0 settings0 "write_note".data
      { args0 with path := some "a.md".data } rfl).1 (by decide) (by decide)).1

/-- C9: the complete-task dispatch hands the task id to the task-store
collaborator with no path validation, so an approved call succeeds even
when the validator rejects the embedded file path; every other
path-bearing tool (read-note, write-note, add-task, list-notes)
validates its path argument first and, on a rejected path, returns the
validation error without consulting any collaborator outcome. -/
theorem completeTask_unvalidated (env : ToolEnv) (settings : ObsidianCCSettings)
    (args : Args) (tid : Str)
    (htid : args.taskId = some tid)
    (hbad : (PathValidator.validate env.vaultPath tid).valid = false)
    (happ : env.approved = true)
    (hok : env.completeTaskResult = .ok ()) :
    ((MCPServer.executeTool env settings "complete_task".data args).1.isError = false)
  ∧ (∀ p, (PathValidator.validateWithExtension env.vaultPath p true).valid = false →
      MCPServer.readNote env settings p
        = ([], .error ((PathValidator.validateWithExtension env.vaultPath p true).error.getD []))
      ∧ (∀ mo, MCPServer.writeNote env settings p mo
        = ([], .error ((PathValidator.validateWithExtension env.vaultPath p true).error.getD [])))
      ∧ MCPServer.addTask env settings p
        = ([], .error ((PathValidator.validateWithExtension env.vaultPath p true).error.getD [])))
  ∧ (∀ f, (PathValidator.validateFolder env.vaultPath f).valid = false →
      MCPServer.listNotes env settings f
        = ([], .error ((PathValidator.validateFolder env.vaultPath f).error.getD []))) := by
  refine ⟨?_, ?_, ?_⟩
  · unfold MCPServer.executeTool
    rw [dispatch_complete_task]
    unfold MCPServer.completeTask
    rw [hok]
    unfold OperationGuard.executeWithApproval
    rw [happ]
    split_ifs with hra h2 <;> simp_all
  · intro p hp
    refine ⟨?_, ?_, ?_⟩
    · unfold MCPServer.readNote
      simp [hp]
    · intro mo
      unfold MCPServer.writeNote
      simp [hp]
    · unfold MCPServer.addTask
      simp [hp]
  · intro f hf
    unfold MCPServer.listNotes
    simp [hf]

/-- Witness for C9: a task id embedding a traversal path is accepted by
the complete-task dispatch, while the read-note handler rejects a
traversal path with the validation error. -/
theorem completeTask_unvalidated_witness :
    ((MCPServer.executeTool env0 settings0 "complete_task".data
        { args0 with taskId := some "../../etc/shadow.md:3".data }).1.isError = false)
  ∧ MCPServer.readNote env0 settings0 (some "../x.md".data)
      = ([], .error ((PathValidator.validateWithExtension env0.vaultPath
          (some "../x.md".data) true).error.getD [])) := by
  have h := completeTask_unvalidated env0 settings0
    { args0 with taskId := some "../../etc/shadow.md:3".data }
    "../../etc/shadow.md:3".data rfl (by decide) rfl rfl
  exact ⟨h.1, (h.2.1 (some "../x.md".data) (by decide)).1⟩
